import Mathlib

/-!
Verification of the challenge-quality optimization pipeline
(`src/optimization/evaluator.py`, `config.py`, `bake_prompt.py`,
`optimize_challenge_prompt.py`).

Scores are Python floats in the source; they are modelled exactly as
rationals.  Strings handled by `bake_prompt` are modelled as `List Char`,
with `pyReplace` implementing the semantics of Python's `str.replace`
(leftmost, non-overlapping, all occurrences).
-/

namespace SkillIssue

/-- The five quality dimensions (`EvaluationScores` TypedDict in
`evaluator.py`).  Also reused for the weight table, which has the same
keys. -/
structure EvaluationScores where
  clarity : ℚ
  difficulty_alignment : ℚ
  distractor_quality : ℚ
  educational_value : ℚ
  skill_relevance : ℚ
  deriving Repr, DecidableEq

/-- The per-dimension reason strings collected by `_parse_response` /
`_create_failed_evaluation`. -/
structure Reasons where
  clarity : String
  difficulty_alignment : String
  distractor_quality : String
  educational_value : String
  skill_relevance : String
  overall : String
  deriving Repr, DecidableEq

/-- Record type `EvaluationResult` from `evaluator.py`. -/
structure EvaluationResult where
  scores : EvaluationScores
  composite_score : ℚ
  passed : Bool
  reasons : Reasons
  deriving Repr, DecidableEq

/-- Constant `EVALUATION_WEIGHTS` from `config.py`. -/
def EVALUATION_WEIGHTS : EvaluationScores :=
  { clarity := 0.20
    difficulty_alignment := 0.25
    distractor_quality := 0.20
    educational_value := 0.15
    skill_relevance := 0.20 }

/-- Constant `QUALITY_THRESHOLD` from `config.py`. -/
def QUALITY_THRESHOLD : ℚ := 0.7

namespace ChallengeEvaluator

/-- Embedding of `ChallengeEvaluator._normalize_score`.  A raw JSON value is either
numeric (`some q`) or not numeric (`none`, covering Python `None`,
strings, and missing keys, all of which fail the `isinstance` check). -/
def _normalize_score (value : Option ℚ) : ℚ :=
  match value with
  | none => 0
  | some v => max 0 (min 10 v) / 10

/-- Embedding of `ChallengeEvaluator._calculate_composite`. -/
def _calculate_composite (scores : EvaluationScores) : ℚ :=
  scores.clarity * EVALUATION_WEIGHTS.clarity
    + scores.difficulty_alignment * EVALUATION_WEIGHTS.difficulty_alignment
    + scores.distractor_quality * EVALUATION_WEIGHTS.distractor_quality
    + scores.educational_value * EVALUATION_WEIGHTS.educational_value
    + scores.skill_relevance * EVALUATION_WEIGHTS.skill_relevance

/-- Embedding of `ChallengeEvaluator._create_failed_evaluation`. -/
def _create_failed_evaluation (reason : String) : EvaluationResult :=
  { scores :=
      { clarity := 0.0
        difficulty_alignment := 0.0
        distractor_quality := 0.0
        educational_value := 0.0
        skill_relevance := 0.0 }
    composite_score := 0.0
    passed := false
    reasons :=
      { clarity := reason
        difficulty_alignment := reason
        distractor_quality := reason
        educational_value := reason
        skill_relevance := reason
        overall := reason } }

/-- The data `_parse_response` reads from a successfully extracted and
`json.loads`-parsed JSON object: for each dimension, the raw value picked
by the `parsed.get(...) or parsed.get(...)` chains (`none` when the chain
yields a non-numeric value), and the optional reason strings. -/
structure ParsedEvaluation where
  clarity : Option ℚ
  difficulty_alignment : Option ℚ
  distractor_quality : Option ℚ
  educational_value : Option ℚ
  skill_relevance : Option ℚ
  clarityReason : Option String
  difficultyReason : Option String
  distractorReason : Option String
  educationalReason : Option String
  relevanceReason : Option String
  overall : Option String

/-- Embedding of `ChallengeEvaluator._parse_response`.  The markdown-stripping /
regex-extraction / `json.loads` front end is abstracted as an
`Except String ParsedEvaluation` outcome: `.error e` is the case in which
no JSON object is found or any exception is raised inside the `try`
block (caught by the `except` clause), `.ok parsed` the successful
parse. -/
def _parse_response (outcome : Except String ParsedEvaluation) :
    EvaluationResult :=
  match outcome with
  | .error e => _create_failed_evaluation ("Parse error: " ++ e)
  | .ok parsed =>
    let scores : EvaluationScores :=
      { clarity := _normalize_score parsed.clarity
        difficulty_alignment := _normalize_score parsed.difficulty_alignment
        distractor_quality := _normalize_score parsed.distractor_quality
        educational_value := _normalize_score parsed.educational_value
        skill_relevance := _normalize_score parsed.skill_relevance }
    let reasons : Reasons :=
      { clarity := parsed.clarityReason.getD "No reason provided"
        difficulty_alignment := parsed.difficultyReason.getD "No reason provided"
        distractor_quality := parsed.distractorReason.getD "No reason provided"
        educational_value := parsed.educationalReason.getD "No reason provided"
        skill_relevance := parsed.relevanceReason.getD "No reason provided"
        overall := parsed.overall.getD "No overall summary" }
    let composite_score := _calculate_composite scores
    let passed := decide (QUALITY_THRESHOLD ≤ composite_score)
    { scores := scores
      composite_score := composite_score
      passed := passed
      reasons := reasons }

/-- Parameters declared by `ChallengeEvaluator.evaluate` in
`evaluator.py` (`self` is bound by the method call). -/
def evaluate_params : List String :=
  ["challenge", "skill_name", "skill_description", "target_difficulty"]

end ChallengeEvaluator

/-- A challenge dict as consumed by `is_valid_challenge`:
`challenge.get("question", "")`, `challenge.get("options", [])` and
`challenge.get("correctAnswerIndex")` (`none` when the key is missing or
its value is not an `int`). -/
structure Challenge where
  question : String
  options : List String
  correctAnswerIndex : Option Int

/-- Embedding of `is_valid_challenge` from `evaluator.py`, mirroring the order of the
checks in the source.  Options are Python strings, so `str(option)` is the
option itself and falsiness is emptiness; `len(set(options))` is the
number of distinct options, i.e. `options.dedup.length`. -/
def is_valid_challenge (c : Challenge) : Bool :=
  if c.question = "" ∨ c.question.length < 10 then false
  else if 500 < c.question.length then false
  else if c.options.length ≠ 4 then false
  else if ∃ o ∈ c.options, o = "" ∨ o.length < 1 ∨ 200 < o.length then false
  else
    match c.correctAnswerIndex with
    | none => false
    | some idx =>
      if idx < 0 ∨ 3 < idx then false
      else if c.options.dedup.length ≠ c.options.length then false
      else true

/-- Python call binding for keyword arguments: a call succeeds only when
every keyword names a declared parameter (none of the functions involved
declares `**kwargs`); otherwise `TypeError` is raised. -/
def acceptsKeywords (params kwargs : List String) : Bool :=
  kwargs.all (fun k => params.contains k)

/-- Keywords of the call `evaluator.evaluate(challenge=..., skill_name=...,
skill_description=..., target_difficulty=..., example=...)` made by
`challenge_quality_metric` in `optimize_challenge_prompt.py`. -/
def metric_evaluate_call_kwargs : List String :=
  ["challenge", "skill_name", "skill_description", "target_difficulty", "example"]

/-- Boolean test: `t` is a leading segment of `s`. -/
def isPre : List Char → List Char → Bool
  | [], _ => true
  | _ :: _, [] => false
  | a :: as, b :: bs => a == b && isPre as bs

/-- Boolean test: `t` occurs as a contiguous segment of `s`. -/
def hasSub (t : List Char) : List Char → Bool
  | [] => t.isEmpty
  | c :: rest => isPre t (c :: rest) || hasSub t rest

/-- Worker for `pyReplace`.  The counter skips the characters consumed by
a match; at counter `0` the scan resumes: on a match of `t` it emits `v`
and skips the remaining `t.length - 1` matched characters, otherwise it
keeps the current character. -/
def pyReplaceAux (t v : List Char) : Nat → List Char → List Char
  | _ + 1, [] => []
  | k + 1, _ :: rest => pyReplaceAux t v k rest
  | 0, [] => []
  | 0, c :: rest =>
    if isPre t (c :: rest) then v ++ pyReplaceAux t v (t.length - 1) rest
    else c :: pyReplaceAux t v 0 rest

/-- Python's `s.replace(t, v)` for nonempty `t`: replace every leftmost,
non-overlapping occurrence of `t` in `s` by `v`. -/
def pyReplace (s t v : List Char) : List Char :=
  pyReplaceAux t v 0 s

/-- Decimal digit characters of `n`, most significant first, with enough
fuel (`fuel ≥ n` suffices). -/
def natStrAux : Nat → Nat → List Char
  | 0, _ => []
  | f + 1, n =>
    if n < 10 then [Nat.digitChar n]
    else natStrAux f (n / 10) ++ [Nat.digitChar (n % 10)]

/-- Python's `str(n)` for a natural number. -/
def natStr (n : Nat) : List Char := natStrAux (n + 1) n

/-- Python's `str(i)` for an `int`. -/
def intStr (i : Int) : List Char :=
  if i < 0 then '-' :: natStr i.natAbs else natStr i.toNat

/-- Placeholder `{{skill_name}}`. -/
def phSkillName : List Char := "{{skill_name}}".toList

/-- Placeholder `{{skill_description}}`. -/
def phSkillDescription : List Char := "{{skill_description}}".toList

/-- Placeholder `{{difficulty}}`. -/
def phDifficulty : List Char := "{{difficulty}}".toList

/-- Placeholder `{{difficulty_description}}`. -/
def phDifficultyDescription : List Char := "{{difficulty_description}}".toList

/-- Placeholder `{{input.skill_name}}`. -/
def phInputSkillName : List Char := "{{input.skill_name}}".toList

/-- Placeholder `{{input.skill_description}}`. -/
def phInputSkillDescription : List Char := "{{input.skill_description}}".toList

/-- Placeholder `{{input.difficulty}}`. -/
def phInputDifficulty : List Char := "{{input.difficulty}}".toList

/-- Embedding of `bake_prompt` from `bake_prompt.py`, with `difficulty_description`
and `base_prompt` supplied explicitly (in the source they default to a
difficulty-table lookup and a file read).  The seven `str.replace` calls
are applied in the source's order. -/
def bake_prompt (skill_name skill_description : List Char) (difficulty : Int)
    (difficulty_description : List Char) (base_prompt : List Char) : List Char :=
  let baked := base_prompt
  let baked := pyReplace baked phSkillName skill_name
  let baked := pyReplace baked phSkillDescription skill_description
  let baked := pyReplace baked phDifficulty (intStr difficulty)
  let baked := pyReplace baked phDifficultyDescription difficulty_description
  let baked := pyReplace baked phInputSkillName skill_name
  let baked := pyReplace baked phInputSkillDescription skill_description
  let baked := pyReplace baked phInputDifficulty (intStr difficulty)
  baked

/-! ## Theorems -/

/-- C1: `_calculate_composite` is exactly the weighted sum
`clarity*0.20 + difficulty_alignment*0.25 + distractor_quality*0.20 +
educational_value*0.15 + skill_relevance*0.20`, with the weights taken
from `EVALUATION_WEIGHTS`, and `_parse_response` stores exactly this
value of its normalized scores as `composite_score`. -/
theorem composite_is_weighted_sum :
    (EVALUATION_WEIGHTS.clarity = 0.20 ∧ EVALUATION_WEIGHTS.difficulty_alignment = 0.25 ∧
        EVALUATION_WEIGHTS.distractor_quality = 0.20 ∧
        EVALUATION_WEIGHTS.educational_value = 0.15 ∧
        EVALUATION_WEIGHTS.skill_relevance = 0.20) ∧
      (∀ s : EvaluationScores,
        ChallengeEvaluator._calculate_composite s =
          s.clarity * 0.20 + s.difficulty_alignment * 0.25 + s.distractor_quality * 0.20 +
            s.educational_value * 0.15 + s.skill_relevance * 0.20) ∧
      ∀ p : ChallengeEvaluator.ParsedEvaluation,
        (ChallengeEvaluator._parse_response (.ok p)).composite_score =
          ChallengeEvaluator._calculate_composite
            (ChallengeEvaluator._parse_response (.ok p)).scores :=
  ⟨⟨rfl, rfl, rfl, rfl, rfl⟩, fun _ => rfl, fun _ => rfl⟩

/-- C2: `_normalize_score` maps a non-numeric value to `0`, a numeric
value `v` to `max 0 (min 10 v) / 10`, and its result always lies in
`[0, 1]`. -/
theorem normalize_score_spec :
    ChallengeEvaluator._normalize_score none = 0 ∧
      (∀ q : ℚ, ChallengeEvaluator._normalize_score (some q) = max 0 (min 10 q) / 10) ∧
      ∀ v : Option ℚ,
        0 ≤ ChallengeEvaluator._normalize_score v ∧ ChallengeEvaluator._normalize_score v ≤ 1 := by
  refine ⟨rfl, fun q => rfl, fun v => ?_⟩
  cases v with
  | none =>
    constructor <;> norm_num [ChallengeEvaluator._normalize_score]
  | some q =>
    simp only [ChallengeEvaluator._normalize_score]
    refine ⟨div_nonneg (le_max_left 0 _) (by norm_num), ?_⟩
    rw [div_le_one (by norm_num : (0 : ℚ) < 10)]
    exact max_le (by norm_num) (min_le_left _ _)

/-- C3: the five entries of `EVALUATION_WEIGHTS` sum to `1`, and for
every scores record whose five components lie in `[0, 1]` the composite
score lies in `[0, 1]`. -/
theorem weights_sum_one_composite_in_unit_interval :
    (EVALUATION_WEIGHTS.clarity + EVALUATION_WEIGHTS.difficulty_alignment +
        EVALUATION_WEIGHTS.distractor_quality + EVALUATION_WEIGHTS.educational_value +
        EVALUATION_WEIGHTS.skill_relevance = 1) ∧
      ∀ s : EvaluationScores,
        (0 ≤ s.clarity ∧ s.clarity ≤ 1) ∧ (0 ≤ s.difficulty_alignment ∧ s.difficulty_alignment ≤ 1) ∧
            (0 ≤ s.distractor_quality ∧ s.distractor_quality ≤ 1) ∧
            (0 ≤ s.educational_value ∧ s.educational_value ≤ 1) ∧
            (0 ≤ s.skill_relevance ∧ s.skill_relevance ≤ 1) →
          0 ≤ ChallengeEvaluator._calculate_composite s ∧
            ChallengeEvaluator._calculate_composite s ≤ 1 := by
  constructor
  · norm_num [EVALUATION_WEIGHTS]
  · rintro s ⟨⟨h1, h1'⟩, ⟨h2, h2'⟩, ⟨h3, h3'⟩, ⟨h4, h4'⟩, ⟨h5, h5'⟩⟩
    norm_num [ChallengeEvaluator._calculate_composite, EVALUATION_WEIGHTS]
    constructor <;> linarith

/-- Witness for `weights_sum_one_composite_in_unit_interval` at a
concrete scores record. -/
theorem weights_sum_one_composite_in_unit_interval_witness :
    0 ≤ ChallengeEvaluator._calculate_composite ⟨1, 1, 0, 1/2, 1⟩ ∧
      ChallengeEvaluator._calculate_composite ⟨1, 1, 0, 1/2, 1⟩ ≤ 1 :=
  weights_sum_one_composite_in_unit_interval.2 ⟨1, 1, 0, 1/2, 1⟩ (by norm_num)

/-- C4: in every result produced by `_parse_response`, `passed` is true
exactly when the composite score reaches `QUALITY_THRESHOLD`. -/
theorem passed_iff_threshold :
    ∀ outcome : Except String ChallengeEvaluator.ParsedEvaluation,
      ((ChallengeEvaluator._parse_response outcome).passed = true ↔
        QUALITY_THRESHOLD ≤ (ChallengeEvaluator._parse_response outcome).composite_score) := by
  intro outcome
  cases outcome with
  | error e =>
    norm_num [ChallengeEvaluator._parse_response, ChallengeEvaluator._create_failed_evaluation,
      QUALITY_THRESHOLD]
  | ok p => simp [ChallengeEvaluator._parse_response]

/-- C6: the composite is a weighted average: `_calculate_composite` is
monotone in every component, and its value lies between the minimum and
the maximum of the five component scores. -/
theorem composite_monotone_and_bounded :
    (∀ s1 s2 : EvaluationScores,
        s1.clarity ≤ s2.clarity ∧ s1.difficulty_alignment ≤ s2.difficulty_alignment ∧
            s1.distractor_quality ≤ s2.distractor_quality ∧
            s1.educational_value ≤ s2.educational_value ∧
            s1.skill_relevance ≤ s2.skill_relevance →
          ChallengeEvaluator._calculate_composite s1 ≤
            ChallengeEvaluator._calculate_composite s2) ∧
      ∀ s : EvaluationScores,
        min s.clarity (min s.difficulty_alignment (min s.distractor_quality
            (min s.educational_value s.skill_relevance))) ≤
            ChallengeEvaluator._calculate_composite s ∧
          ChallengeEvaluator._calculate_composite s ≤
            max s.clarity (max s.difficulty_alignment (max s.distractor_quality
              (max s.educational_value s.skill_relevance))) := by
  have hcomp : ∀ s : EvaluationScores,
      ChallengeEvaluator._calculate_composite s =
        s.clarity * (1/5) + s.difficulty_alignment * (1/4) + s.distractor_quality * (1/5) +
          s.educational_value * (3/20) + s.skill_relevance * (1/5) := by
    intro s
    norm_num [ChallengeEvaluator._calculate_composite, EVALUATION_WEIGHTS]
  constructor
  · rintro s1 s2 ⟨h1, h2, h3, h4, h5⟩
    rw [hcomp s1, hcomp s2]
    linarith
  · intro s
    have hm1 : min s.clarity (min s.difficulty_alignment (min s.distractor_quality
        (min s.educational_value s.skill_relevance))) ≤ s.clarity := min_le_left _ _
    have hm2 : min s.clarity (min s.difficulty_alignment (min s.distractor_quality
        (min s.educational_value s.skill_relevance))) ≤ s.difficulty_alignment :=
      le_trans (min_le_right _ _) (min_le_left _ _)
    have hm3 : min s.clarity (min s.difficulty_alignment (min s.distractor_quality
        (min s.educational_value s.skill_relevance))) ≤ s.distractor_quality :=
      le_trans (min_le_right _ _) (le_trans (min_le_right _ _) (min_le_left _ _))
    have hm4 : min s.clarity (min s.difficulty_alignment (min s.distractor_quality
        (min s.educational_value s.skill_relevance))) ≤ s.educational_value :=
      le_trans (min_le_right _ _)
        (le_trans (min_le_right _ _) (le_trans (min_le_right _ _) (min_le_left _ _)))
    have hm5 : min s.clarity (min s.difficulty_alignment (min s.distractor_quality
        (min s.educational_value s.skill_relevance))) ≤ s.skill_relevance :=
      le_trans (min_le_right _ _)
        (le_trans (min_le_right _ _) (le_trans (min_le_right _ _) (min_le_right _ _)))
    have hx1 : s.clarity ≤ max s.clarity (max s.difficulty_alignment (max s.distractor_quality
        (max s.educational_value s.skill_relevance))) := le_max_left _ _
    have hx2 : s.difficulty_alignment ≤ max s.clarity (max s.difficulty_alignment
        (max s.distractor_quality (max s.educational_value s.skill_relevance))) :=
      le_trans (le_max_left _ _) (le_max_right _ _)
    have hx3 : s.distractor_quality ≤ max s.clarity (max s.difficulty_alignment
        (max s.distractor_quality (max s.educational_value s.skill_relevance))) :=
      le_trans (le_trans (le_max_left _ _) (le_max_right _ _)) (le_max_right _ _)
    have hx4 : s.educational_value ≤ max s.clarity (max s.difficulty_alignment
        (max s.distractor_quality (max s.educational_value s.skill_relevance))) :=
      le_trans (le_trans (le_trans (le_max_left _ _) (le_max_right _ _)) (le_max_right _ _))
        (le_max_right _ _)
    have hx5 : s.skill_relevance ≤ max s.clarity (max s.difficulty_alignment
        (max s.distractor_quality (max s.educational_value s.skill_relevance))) :=
      le_trans (le_trans (le_trans (le_max_right _ _) (le_max_right _ _)) (le_max_right _ _))
        (le_max_right _ _)
    constructor <;> rw [hcomp s] <;> linarith

/-- Witness for `composite_monotone_and_bounded` at concrete scores. -/
theorem composite_monotone_and_bounded_witness :
    ChallengeEvaluator._calculate_composite ⟨0, 0, 0, 0, 0⟩ ≤
      ChallengeEvaluator._calculate_composite ⟨1, 1, 1, 1, 1⟩ :=
  composite_monotone_and_bounded.1 ⟨0, 0, 0, 0, 0⟩ ⟨1, 1, 1, 1, 1⟩ (by norm_num)

/-- C8: when extraction or parsing of the judge response fails in any
way, `_parse_response` returns exactly the failed evaluation: all five
scores `0`, composite score `0` and `passed = false`. -/
theorem parse_failure_is_failed_evaluation :
    ∀ e : String,
      ChallengeEvaluator._parse_response (.error e) =
          ChallengeEvaluator._create_failed_evaluation ("Parse error: " ++ e) ∧
        (ChallengeEvaluator._parse_response (.error e)).scores = ⟨0, 0, 0, 0, 0⟩ ∧
        (ChallengeEvaluator._parse_response (.error e)).composite_score = 0 ∧
        (ChallengeEvaluator._parse_response (.error e)).passed = false :=
  fun _ => ⟨rfl, by norm_num [ChallengeEvaluator._parse_response,
    ChallengeEvaluator._create_failed_evaluation], by norm_num [ChallengeEvaluator._parse_response,
    ChallengeEvaluator._create_failed_evaluation], rfl⟩

/-- The duplicate test of `is_valid_challenge`:
`len(set(options)) == len(options)` holds exactly when the options are
pairwise distinct. -/
theorem dedup_length_eq_iff {l : List String} : l.dedup.length = l.length ↔ l.Nodup := by
  constructor
  · intro h
    have hs := List.dedup_sublist l
    rw [← hs.eq_of_length h]
    exact List.nodup_dedup l
  · intro h
    rw [List.dedup_eq_self.mpr h]

/-- C7: the call `evaluator.evaluate(..., example=example)` made by
`challenge_quality_metric` does not match the declared signature of
`ChallengeEvaluator.evaluate`: the keyword `example` names no declared
parameter, so Python raises `TypeError` instead of returning a
`ScoreResult`. -/
theorem metric_evaluate_call_rejected :
    acceptsKeywords ChallengeEvaluator.evaluate_params metric_evaluate_call_kwargs = false ∧
      ChallengeEvaluator.evaluate_params.contains "example" = false := by
  constructor
  · rfl
  · rfl

/-- C9: `is_valid_challenge` returns `true` exactly when the question is
non-empty with length in `[10, 500]`, the options are exactly `4`
pairwise-distinct non-empty strings of length at most `200`, and the
`correctAnswerIndex` field is an `int` between `0` and `3`. -/
theorem is_valid_challenge_iff (c : Challenge) :
    is_valid_challenge c = true ↔
      c.question ≠ "" ∧ 10 ≤ c.question.length ∧ c.question.length ≤ 500 ∧
        c.options.length = 4 ∧ (∀ o ∈ c.options, o ≠ "" ∧ o.length ≤ 200) ∧
        c.options.Nodup ∧
        ∃ i : Int, c.correctAnswerIndex = some i ∧ 0 ≤ i ∧ i ≤ 3 := by
  obtain ⟨q, opts, idx⟩ := c
  cases idx with
  | none =>
    simp only [is_valid_challenge]
    constructor
    · intro h
      exfalso
      split_ifs at h
    · rintro ⟨-, -, -, -, -, -, j, hj, -, -⟩
      exact Option.noConfusion hj
  | some i =>
    simp only [is_valid_challenge]
    split_ifs with h1 h2 h3 h4 h5 h6
    · simp only [Bool.false_eq_true, false_iff]
      rintro ⟨hq, h10, -, -, -, -, -⟩
      rcases h1 with h1 | h1
      · exact hq h1
      · omega
    · simp only [Bool.false_eq_true, false_iff]
      rintro ⟨-, -, h500, -, -, -, -⟩
      omega
    · simp only [Bool.false_eq_true, false_iff]
      rintro ⟨-, -, -, hlen, -, -, -⟩
      exact h3 hlen
    · simp only [Bool.false_eq_true, false_iff]
      rintro ⟨-, -, -, -, hopt, -, -⟩
      obtain ⟨o, ho, hcase⟩ := h4
      obtain ⟨hne, hle⟩ := hopt o ho
      rcases hcase with h | h | h
      · exact hne h
      · refine hne (String.ext (List.length_eq_zero.mp ?_))
        have hlen : o.length = o.data.length := rfl
        omega
      · omega
    · simp only [Bool.false_eq_true, false_iff]
      rintro ⟨-, -, -, -, -, -, j, hj, hj0, hj3⟩
      rw [Option.some_inj] at hj
      subst hj
      rcases h5 with h | h <;> omega
    · simp only [Bool.false_eq_true, false_iff]
      rintro ⟨-, -, -, -, -, hnd, -⟩
      exact h6 (dedup_length_eq_iff.mpr hnd)
    · simp only [true_iff]
      push_neg at h1 h2 h3 h4 h5 h6
      refine ⟨h1.1, by omega, by omega, h3, ?_, dedup_length_eq_iff.mp h6, ⟨i, rfl, by omega, by omega⟩⟩
      intro o ho
      obtain ⟨ho1, ho2, ho3⟩ := h4 o ho
      exact ⟨ho1, by omega⟩

/-- Skipping `k` characters before resuming the scan is dropping them. -/
theorem pyReplaceAux_eq_drop (t v : List Char) :
    ∀ (k : Nat) (s : List Char), pyReplaceAux t v k s = pyReplaceAux t v 0 (s.drop k) := by
  intro k
  induction k with
  | zero => intro s; rfl
  | succ k ih =>
    intro s
    cases s with
    | nil => simp [pyReplaceAux]
    | cons c rest => simpa [pyReplaceAux] using ih rest

/-- One scan step of `pyReplace` on a non-empty string. -/
theorem pyReplace_cons (t v : List Char) (c : Char) (rest : List Char) :
    pyReplace (c :: rest) t v =
      if isPre t (c :: rest) then v ++ pyReplace (rest.drop (t.length - 1)) t v
      else c :: pyReplace rest t v := by
  have h : pyReplaceAux t v 0 (c :: rest) =
      if isPre t (c :: rest) then v ++ pyReplaceAux t v (t.length - 1) rest
      else c :: pyReplaceAux t v 0 rest := rfl
  rw [pyReplace, h, pyReplaceAux_eq_drop]
  rfl

/-- Unfolding equation for `hasSub` on a non-empty string. -/
theorem hasSub_cons (t : List Char) (c : Char) (rest : List Char) :
    hasSub t (c :: rest) = (isPre t (c :: rest) || hasSub t rest) := rfl

/-- A segment made of characters foreign to `t` contributes no
occurrence of `t`. -/
theorem hasSub_append_of_disjoint (th : Char) (tt : List Char) :
    ∀ v w : List Char, (∀ x ∈ v, x ∉ th :: tt) →
      hasSub (th :: tt) (v ++ w) = hasSub (th :: tt) w := by
  intro v
  induction v with
  | nil => intro w _; rfl
  | cons a v' ih =>
    intro w hdisj
    have ha : a ∉ th :: tt := hdisj a (List.mem_cons_self a v')
    have hne : (th == a) = false := by
      refine beq_eq_false_iff_ne.mpr fun h => ?_
      rw [← h] at ha
      exact ha (List.mem_cons_self th tt)
    have h1 : isPre (th :: tt) (a :: (v' ++ w)) = false := by
      simp [isPre, hne]
    rw [List.cons_append, hasSub_cons, h1, Bool.false_or]
    exact ih w fun x hx => hdisj x (List.mem_cons_of_mem a hx)

/-- If the replacement text `v` is non-empty and shares no character with
`t`, a string of `t`-characters that starts the replaced output also
starts the original input. -/
theorem isPre_trans_pyReplace (t v : List Char) (hv : v ≠ [])
    (hdisj : ∀ x ∈ v, x ∉ t) :
    ∀ s u : List Char, u ≠ [] → (∀ x ∈ u, x ∈ t) →
      isPre u (pyReplace s t v) = true → isPre u s = true := by
  suffices H : ∀ (n : Nat) (s u : List Char), s.length ≤ n → u ≠ [] → (∀ x ∈ u, x ∈ t) →
      isPre u (pyReplace s t v) = true → isPre u s = true from
    fun s u => H s.length s u le_rfl
  intro n
  induction n with
  | zero =>
    intro s u hlen hu hsub hpre
    obtain rfl : s = [] := List.length_eq_zero.mp (Nat.le_zero.mp hlen)
    obtain ⟨uc, u', rfl⟩ := List.exists_cons_of_ne_nil hu
    exact absurd hpre (by simp [pyReplace, pyReplaceAux, isPre])
  | succ n ih =>
    intro s u hlen hu hsub hpre
    cases s with
    | nil =>
      obtain ⟨uc, u', rfl⟩ := List.exists_cons_of_ne_nil hu
      exact absurd hpre (by simp [pyReplace, pyReplaceAux, isPre])
    | cons c rest =>
      rw [pyReplace_cons] at hpre
      obtain ⟨uc, u', rfl⟩ := List.exists_cons_of_ne_nil hu
      by_cases hm : isPre t (c :: rest) = true
      · rw [if_pos hm] at hpre
        obtain ⟨vc, v', rfl⟩ := List.exists_cons_of_ne_nil hv
        rw [List.cons_append] at hpre
        simp only [isPre, Bool.and_eq_true, beq_iff_eq] at hpre
        exact absurd (hpre.1 ▸ hsub uc (List.mem_cons_self _ _))
          (hdisj vc (List.mem_cons_self _ _))
      · rw [if_neg hm] at hpre
        simp only [isPre, Bool.and_eq_true, beq_iff_eq] at hpre ⊢
        refine ⟨hpre.1, ?_⟩
        by_cases hu' : u' = []
        · subst hu'; rfl
        · have hrest : rest.length ≤ n := by
            simp only [List.length_cons] at hlen
            omega
          exact ih rest u' hrest hu' (fun x hx => hsub x (List.mem_cons_of_mem _ hx)) hpre.2

/-- Core property of Python's `str.replace`: when the replacement text is
non-empty and shares no character with the (non-empty) pattern, the
output contains no occurrence of the pattern. -/
theorem hasSub_pyReplace_self (t v : List Char) (ht : t ≠ []) (hv : v ≠ [])
    (hdisj : ∀ x ∈ v, x ∉ t) : ∀ s : List Char, hasSub t (pyReplace s t v) = false := by
  obtain ⟨th, tt, rfl⟩ := List.exists_cons_of_ne_nil ht
  suffices H : ∀ (n : Nat) (s : List Char), s.length ≤ n →
      hasSub (th :: tt) (pyReplace s (th :: tt) v) = false from
    fun s => H s.length s le_rfl
  intro n
  induction n with
  | zero =>
    intro s hlen
    obtain rfl : s = [] := List.length_eq_zero.mp (Nat.le_zero.mp hlen)
    rfl
  | succ n ih =>
    intro s hlen
    cases s with
    | nil => rfl
    | cons c rest =>
      have hrest : rest.length ≤ n := by
        simp only [List.length_cons] at hlen
        omega
      rw [pyReplace_cons]
      by_cases hm : isPre (th :: tt) (c :: rest) = true
      · rw [if_pos hm, hasSub_append_of_disjoint th tt v _ hdisj]
        refine ih _ ?_
        calc (rest.drop ((th :: tt).length - 1)).length ≤ rest.length := by
              rw [List.length_drop]; omega
          _ ≤ n := hrest
      · rw [if_neg hm, hasSub_cons, Bool.or_eq_false_iff]
        refine ⟨?_, ih rest hrest⟩
        by_cases hp : isPre (th :: tt) (c :: pyReplace rest (th :: tt) v) = true
        · exfalso
          simp only [isPre, Bool.and_eq_true, beq_iff_eq] at hp hm
          obtain ⟨rfl, hp2⟩ := hp
          by_cases htt : tt = []
          · exact hm ⟨rfl, by subst htt; rfl⟩
          · exact hm ⟨rfl, isPre_trans_pyReplace (th :: tt) v hv hdisj rest tt htt
              (fun x hx => List.mem_cons_of_mem _ hx) hp2⟩
        · exact Bool.eq_false_iff.mpr hp

/-- Every character produced by `natStrAux` is a decimal digit. -/
theorem natStrAux_digits :
    ∀ f n : Nat, ∀ c ∈ natStrAux f n, 48 ≤ c.toNat ∧ c.toNat ≤ 57 := by
  have hdigit : ∀ k, k < 10 → 48 ≤ (Nat.digitChar k).toNat ∧ (Nat.digitChar k).toNat ≤ 57 := by
    decide
  intro f
  induction f with
  | zero => intro n c hc; simp [natStrAux] at hc
  | succ f ih =>
    intro n c hc
    simp only [natStrAux] at hc
    by_cases h : n < 10
    · rw [if_pos h] at hc
      rw [List.mem_singleton] at hc
      exact hc ▸ hdigit n h
    · rw [if_neg h] at hc
      rcases List.mem_append.mp hc with h1 | h2
      · exact ih _ c h1
      · rw [List.mem_singleton] at h2
        exact h2 ▸ hdigit (n % 10) (Nat.mod_lt _ (by norm_num))

/-- With positive fuel, `natStrAux` never returns the empty string. -/
theorem natStrAux_ne_nil (f n : Nat) : natStrAux (f + 1) n ≠ [] := by
  simp only [natStrAux]
  by_cases h : n < 10 <;> simp [h]

/-- Python's `str(i)` is never the empty string. -/
theorem intStr_ne_nil (i : Int) : intStr i ≠ [] := by
  unfold intStr
  by_cases h : i < 0
  · simp [h]
  · rw [if_neg h]
    exact natStrAux_ne_nil _ _

/-- Every character of `str(i)` is a minus sign or a decimal digit. -/
theorem intStr_toNat_bounds (i : Int) :
    ∀ c ∈ intStr i, c.toNat = 45 ∨ (48 ≤ c.toNat ∧ c.toNat ≤ 57) := by
  intro c hc
  unfold intStr at hc
  by_cases h : i < 0
  · rw [if_pos h] at hc
    rcases List.mem_cons.mp hc with rfl | hc'
    · left; rfl
    · right; exact natStrAux_digits _ _ c hc'
  · rw [if_neg h] at hc
    right; exact natStrAux_digits _ _ c hc

/-- The text `str(difficulty)` shares no character with `{{input.difficulty}}`. -/
theorem intStr_disjoint_phInputDifficulty (i : Int) :
    ∀ x ∈ intStr i, x ∉ phInputDifficulty := by
  intro x hx hmem
  have hbounds := intStr_toNat_bounds i x hx
  have h7 : ∀ y ∈ phInputDifficulty, y.toNat ≠ 45 ∧ (y.toNat < 48 ∨ 57 < y.toNat) := by decide
  obtain ⟨h1, h2⟩ := h7 x hmem
  omega

/-- C5 counterexample: with `difficulty_description = "{{skill_name}}"`
and `base_prompt = "{{difficulty_description}}"` (and empty skill name
and description, difficulty `5`), `bake_prompt` returns exactly
`"{{skill_name}}"`, which still contains the placeholder
`{{skill_name}}`: a later replacement reintroduced a placeholder handled
earlier. -/
theorem bake_prompt_keeps_placeholder_cex :
    bake_prompt [] [] 5 "{{skill_name}}".toList "{{difficulty_description}}".toList =
        "{{skill_name}}".toList ∧
      hasSub phSkillName
        (bake_prompt [] [] 5 "{{skill_name}}".toList "{{difficulty_description}}".toList) =
        true := by
  constructor
  · decide
  · decide

/-- C5 (amended): the string returned by `bake_prompt` never contains
the placeholder `{{input.difficulty}}` — the last one replaced, whose
replacement text `str(difficulty)` consists of digits and a possible
minus sign only.  The other six placeholders are guaranteed absent only
when the substituted values do not reintroduce placeholder text, since
the seven replacements are applied in a fixed order. -/
theorem bake_prompt_no_input_difficulty :
    ∀ (skill_name skill_description : List Char) (difficulty : Int)
      (difficulty_description base_prompt : List Char),
      hasSub phInputDifficulty
        (bake_prompt skill_name skill_description difficulty difficulty_description
          base_prompt) = false := by
  intro sn sd d dd bp
  exact hasSub_pyReplace_self phInputDifficulty (intStr d) (by decide) (intStr_ne_nil d)
    (intStr_disjoint_phInputDifficulty d) _

end SkillIssue
